import Mathlib

/-!
# Verification of the todo-app state-management and persistence core

Shallow embedding of the repository's core components:
* `Todo` (src/unnamed/part_001, `todo.js`): the immutable task record with
  constructor validation, `toggle`, `toJSON`, `fromJSON`, `generateId`.
* `InputValidator` (src/unnamed/part_002, `validation.js`): `validateTaskText`,
  `containsUnsafeCharacters`, `sanitizeText`.
* `StorageManager` (src/src/js/storage.js): `saveTodos`, `loadTodos`,
  `clearTodos` over a modelled durable medium with an in-memory fallback.
* `TodoApp` (src/unnamed/part_003, `app.js`): `initialize`, `addTodo`,
  `toggleTodo`, `deleteTodo`, `clearAllTodos` and the read projections.

JavaScript strings are modelled as `List Char`; machine behaviour that lives
outside the repository (the `localStorage` medium, `Date` parsing and
formatting, exceptions raised by `setItem`/`removeItem`) is modelled by
explicit state and outcome parameters, documented at each definition.
-/

/-- JavaScript strings are modelled as lists of characters. -/
abbrev Str := List Char

/-- Convert a Lean string literal to the `Str` model. -/
def jsStr (s : String) : Str := s.toList

/-- Model of JavaScript `String.prototype.trim`: drop leading whitespace.
`Char.isWhitespace` (space, tab, CR, LF) models the JS whitespace class. -/
def trimLeft (s : Str) : Str := s.dropWhile fun c => c.isWhitespace

/-- Drop trailing whitespace. -/
def trimRight (s : Str) : Str := (trimLeft s.reverse).reverse

/-- Model of JavaScript `text.trim()`: drop leading and trailing whitespace. -/
def jsTrim (s : Str) : Str := trimRight (trimLeft s)

/-- `\w` character class of the JS regexes: ASCII letters, digits, underscore. -/
def isWordChar (c : Char) : Bool := c.isAlphanum || c = '_'

/-- ASCII lowering, modelling case-insensitive (`/i`) regex matching. -/
def toLowerStr (s : Str) : Str := s.map Char.toLower

/-- Does predicate `p` hold of some suffix of the string?  Used to model
regex matching at an arbitrary start position. -/
def anySuffix (p : Str → Bool) : Str → Bool
  | [] => p []
  | c :: cs => p (c :: cs) || anySuffix p cs

/-- Does `needle` occur as a contiguous segment of `hay`?  Models a regex
literal matching anywhere in the text. -/
def containsSeq (needle hay : Str) : Bool :=
  anySuffix (fun t => needle.isPrefixOf t) hay

/-- Model of `/<script\b[^<]*(?:(?!<\/script>)<[^<]*)*<\/script>/gi` from
`InputValidator.containsUnsafeCharacters` (validation.js line 133).  With
backtracking this regex matches iff the (lowered) text has an occurrence of
`<script` whose following character exists and is not a word character
(the `\b`), with an occurrence of `</script>` somewhere after it. -/
def scriptTagPat (l : Str) : Bool :=
  anySuffix (fun t =>
    (jsStr "<script").isPrefixOf t &&
    (match t.drop 7 with
     | [] => false
     | c :: rest => !isWordChar c && containsSeq (jsStr "</script>") (c :: rest))) l

/-- Model of `/<iframe\b[^<]*(?:(?!<\/iframe>)<[^<]*)*<\/iframe>/gi`
(validation.js line 134), same shape as the script pattern. -/
def iframeTagPat (l : Str) : Bool :=
  anySuffix (fun t =>
    (jsStr "<iframe").isPrefixOf t &&
    (match t.drop 7 with
     | [] => false
     | c :: rest => !isWordChar c && containsSeq (jsStr "</iframe>") (c :: rest))) l

/-- Model of `/on\w+\s*=/gi` (validation.js line 136): `on`, then at least one
word character, then optional whitespace, then `=`.  Greedy matching without
backtracking is complete here because the word class, the whitespace class
and `=` are pairwise disjoint. -/
def onHandlerPat (l : Str) : Bool :=
  anySuffix (fun t =>
    match t with
    | 'o' :: 'n' :: rest =>
      let w := rest.takeWhile isWordChar
      !w.isEmpty &&
        (match (rest.drop w.length).dropWhile (fun c => c.isWhitespace) with
         | '=' :: _ => true
         | _ => false)
    | _ => false) l

/-- `InputValidator.containsUnsafeCharacters` (validation.js lines 130-140):
true iff the text matches a script tag, an iframe tag, a `javascript:` URI or
an inline event-handler attribute, all case-insensitively. -/
def containsUnsafeCharacters (s : Str) : Bool :=
  let l := toLowerStr s
  scriptTagPat l || iframeTagPat l || containsSeq (jsStr "javascript:") l ||
    onHandlerPat l

/-- Escape one character as in `InputValidator.sanitizeText` (validation.js
lines 152-157).  The source applies five global `replace` calls in the order
`&`, `<`, `>`, `"`, `'`; since no replacement string contains a character
escaped by a later call, this equals a single per-character substitution. -/
def escapeChar (c : Char) : Str :=
  if c = '&' then jsStr "&amp;"
  else if c = '<' then jsStr "&lt;"
  else if c = '>' then jsStr "&gt;"
  else if c = '"' then jsStr "&quot;"
  else if c = '\'' then jsStr "&#x27;"
  else [c]

/-- HTML-escape every character of the text. -/
def htmlEscape (s : Str) : Str := (s.map escapeChar).flatten

/-- A JavaScript value passed as the candidate task text: a string, `null`,
`undefined`, or any other non-string value. -/
inductive JSInput where
  | str (s : Str)
  | null
  | undefined
  | other
deriving DecidableEq

/-- Error kinds of the validation branches, following the spec's taxonomy:
both the null/undefined branch and the non-string branch of
`validateTaskText` report the `notAString` kind; the dead minimum-length
branch is kept as `tooShort` for fidelity. -/
inductive VKind where
  | notAString
  | empty
  | tooLong
  | tooShort
  | unsafeContent
deriving DecidableEq

/-- `ValidationResult` (validation.js lines 9-31): success, or an error with
its message; the branch kind is recorded alongside the message. -/
inductive VResult where
  | ok
  | err (kind : VKind) (msg : Str)
deriving DecidableEq

/-- `isValid` field of a `ValidationResult`. -/
def VResult.isValid : VResult → Bool
  | .ok => true
  | .err _ _ => false

/-- The branch kind of a validation outcome (`none` means valid). -/
def VResult.kind? : VResult → Option VKind
  | .ok => none
  | .err k _ => some k

/-- `InputValidator.validateTaskText` (validation.js lines 42-75), branch by
branch: null/undefined check, string-type check, emptiness after trim,
maximum length 200, (unreachable) minimum length 1, unsafe-content check. -/
def validateTaskText (x : JSInput) : VResult :=
  match x with
  | .null => .err .notAString (jsStr "タスクのテキストが入力されていません")
  | .undefined => .err .notAString (jsStr "タスクのテキストが入力されていません")
  | .other => .err .notAString (jsStr "タスクのテキストは文字列である必要があります")
  | .str s =>
    let trimmedText := jsTrim s
    if trimmedText.length = 0 then
      .err .empty (jsStr "タスクのテキストは空にできません")
    else if trimmedText.length > 200 then
      .err .tooLong (jsStr "タスクのテキストは200文字以内で入力してください")
    else if trimmedText.length < 1 then
      .err .tooShort (jsStr "タスクのテキストは1文字以上入力してください")
    else if containsUnsafeCharacters trimmedText then
      .err .unsafeContent (jsStr "使用できない文字が含まれています")
    else .ok

/-- `InputValidator.sanitizeText` (validation.js lines 147-159): empty or
non-string input yields the empty string; otherwise HTML-escape then trim. -/
def sanitizeText (x : JSInput) : Str :=
  match x with
  | .str s => if s = [] then [] else jsTrim (htmlEscape s)
  | _ => []

/-- The immutable task record (todo.js).  `createdAt` is the timestamp of a
valid `Date`, modelled as an integer of epoch milliseconds. -/
structure Todo where
  id : Str
  text : Str
  completed : Bool
  createdAt : Int
deriving DecidableEq

/-- `Todo.validateId` (todo.js lines 31-35) as a boolean: the check passes
iff the id is a string that is non-empty (`!id`) and non-empty after trim. -/
def validIdOk (id : Str) : Bool :=
  if id = [] then false
  else if (jsTrim id).length = 0 then false
  else true

/-- `Todo.validateText` (todo.js lines 42-55) as a boolean: the check passes
iff the text is a non-empty string whose trimmed length is 1 to 200. -/
def validTextOk (text : Str) : Bool :=
  if text = [] then false
  else
    let trimmedText := jsTrim text
    if trimmedText.length = 0 then false
    else if trimmedText.length > 200 then false
    else true

/-- The `Todo` constructor (todo.js lines 13-24): validates id, text,
completed (always a boolean here) and createdAt, throwing on failure; the
throw is modelled as `none`.  `createdAt = none` models an invalid `Date`
(`isNaN(createdAt.getTime())`). -/
def Todo.make (id text : Str) (completed : Bool) (createdAt : Option Int) :
    Option Todo :=
  if validIdOk id then
    if validTextOk text then
      match createdAt with
      | some t => some ⟨id, text, completed, t⟩
      | none => none
    else none
  else none

/-- `Todo.toggle` (todo.js lines 83-85): construct a new `Todo` with the same
id, text and createdAt and inverted completed; the constructor re-validates. -/
def Todo.toggle (t : Todo) : Option Todo :=
  Todo.make t.id t.text (!t.completed) (some t.createdAt)

/-- A task satisfies the `Todo` constructor's validation of id and text. -/
def Todo.WF (t : Todo) : Prop :=
  validIdOk t.id = true ∧ validTextOk t.text = true

instance (t : Todo) : Decidable t.WF :=
  inferInstanceAs (Decidable (_ ∧ _))

/-- `Todo.generateId` (todo.js lines 127-129): `'todo_' + Date.now() + '_' +`
a random suffix; the clock value and random component are parameters. -/
def generateId (nowMs : Nat) (rand : Str) : Str :=
  jsStr "todo_" ++ jsStr (toString nowMs) ++ jsStr "_" ++ rand

/-- A primitive JSON value as found in a persisted record field.  A string
that `new Date(...)` parses to a valid timestamp `t` is represented by
`isoDate t` (the output of `Date.prototype.toISOString`); `str` represents
every other string.  `undefined` models an absent field. -/
inductive JsonPrim where
  | str (s : Str)
  | isoDate (t : Int)
  | num (n : Int)
  | bool (b : Bool)
  | null
  | undefined
deriving DecidableEq

/-- Model of `Date.prototype.toISOString`, an injective rendering of the
timestamp; the exact ISO-8601 digits are irrelevant to the claims. -/
def dateToISO (t : Int) : Str := jsStr "iso:" ++ jsStr (toString t)

/-- Is the value a JS string (`typeof v === 'string'`), and which one? -/
def primAsString : JsonPrim → Option Str
  | .str s => some s
  | .isoDate t => some (dateToISO t)
  | _ => none

/-- Model of `new Date(v).getTime()` in `Todo.fromJSON`: `none` is an invalid
date.  Numbers are taken as epoch milliseconds; `null` and booleans coerce to
0/1; `undefined` and non-date strings yield an invalid date. -/
def parseDateJS : JsonPrim → Option Int
  | .isoDate t => some t
  | .num n => some n
  | .bool b => some (if b then 1 else 0)
  | .null => some 0
  | .str _ => none
  | .undefined => none

/-- The persisted wire shape `{id, text, completed, createdAt}` with each
field an arbitrary JSON primitive (a malformed record is one whose fields do
not pass the `Todo` constructor). -/
structure RawRecord where
  id : JsonPrim
  text : JsonPrim
  completed : JsonPrim
  createdAt : JsonPrim
deriving DecidableEq

/-- `Todo.toJSON` (todo.js lines 100-107). -/
def Todo.toJSON (t : Todo) : RawRecord :=
  ⟨.str t.id, .str t.text, .bool t.completed, .isoDate t.createdAt⟩

/-- `Todo.fromJSON` (todo.js lines 114-121): construct a `Todo` from the
record's fields; any constructor throw is `none`.  The id and text must be
strings (other values fail `validateId`/`validateText`), completed must be a
boolean, and `new Date(json.createdAt)` must be valid. -/
def Todo.fromJSON (r : RawRecord) : Option Todo :=
  match primAsString r.id, primAsString r.text, r.completed with
  | some id, some text, .bool b => Todo.make id text b (parseDateJS r.createdAt)
  | _, _, _ => none

/-- Contents of the durable medium under the fixed storage key:
`absent` models `getItem` returning null (or an empty string), `corrupt`
models a stored string on which `JSON.parse` throws or that parses to a
non-array, and `records rs` models a stored JSON array of records. -/
inductive StoreCell where
  | absent
  | corrupt
  | records (rs : List RawRecord)
deriving DecidableEq

/-- `StorageManager` state (storage.js lines 41-45): the availability flag
probed at construction, the in-memory fallback buffer, and the value stored
under `STORAGE_KEY` in the durable medium (part of the modelled world). -/
structure StorageManager where
  isLocalStorageAvailable : Bool
  fallbackData : List RawRecord
  localData : StoreCell
deriving DecidableEq

/-- `StorageResult` (storage.js lines 11-35). -/
structure StorageResult where
  success : Bool
  data : Option (List Todo)
  error : Option Str
deriving DecidableEq

/-- Behaviour of the environment at one `localStorage.setItem` call: it may
succeed, throw `QuotaExceededError`, or throw some other exception. -/
inductive SetItemOutcome where
  | ok
  | throwQuota
  | throwOther
deriving DecidableEq

/-- The quota error message of `saveTodos` (storage.js line 98). -/
def quotaMsg : Str := jsStr "ストレージ容量が不足しています。不要なデータを削除してください。"

/-- `StorageManager.saveTodos` (storage.js lines 68-110).  The input is typed
as a list of `Todo`, so the `Array.isArray` and `instanceof Todo` rejections
cannot fire.  The tasks are serialized and written to the medium when
available (where `setItem` may throw, per `env`), else to the fallback
buffer.  A `QuotaExceededError` is reported as the quota error with no
further action; any other `setItem` exception falls back to an in-memory
write of the serialized records, which succeeds. -/
def saveTodos (env : SetItemOutcome) (sm : StorageManager) (todos : List Todo) :
    StorageResult × StorageManager :=
  let todosJson := todos.map Todo.toJSON
  if sm.isLocalStorageAvailable then
    match env with
    | .ok => (⟨true, none, none⟩, { sm with localData := .records todosJson })
    | .throwQuota => (⟨false, none, some quotaMsg⟩, sm)
    | .throwOther => (⟨true, none, none⟩, { sm with fallbackData := todosJson })
  else
    (⟨true, none, none⟩, { sm with fallbackData := todosJson })

/-- `StorageManager.loadTodos` (storage.js lines 116-160).  Reads from the
medium when available, else from the fallback buffer; no data yields success
with an empty list; a corrupt container is caught and also yields success
with an empty list; each record of a stored array is restored independently
via `Todo.fromJSON`, records that throw being skipped. -/
def loadTodos (sm : StorageManager) : StorageResult :=
  if sm.isLocalStorageAvailable then
    match sm.localData with
    | .absent => ⟨true, some [], none⟩
    | .corrupt => ⟨true, some [], none⟩
    | .records rs => ⟨true, some (rs.filterMap Todo.fromJSON), none⟩
  else
    if sm.fallbackData.isEmpty then ⟨true, some [], none⟩
    else ⟨true, some (sm.fallbackData.filterMap Todo.fromJSON), none⟩

/-- `StorageManager.clearTodos` (storage.js lines 166-179): remove the stored
entry when the medium is available (where `removeItem` may throw, modelled by
`removeThrows`; the fallback buffer is then not cleared), then clear the
fallback buffer. -/
def clearTodos (removeThrows : Bool) (sm : StorageManager) :
    StorageResult × StorageManager :=
  if sm.isLocalStorageAvailable then
    if removeThrows then
      (⟨false, none, some (jsStr "データのクリアに失敗しました")⟩, sm)
    else (⟨true, none, none⟩, { sm with localData := .absent, fallbackData := [] })
  else (⟨true, none, none⟩, { sm with fallbackData := [] })

/-- `TodoApp` state (app.js lines 13-18): the task list, the storage manager,
and the `initialized` flag (named `initDone` here). -/
structure TodoApp where
  todos : List Todo
  storageManager : StorageManager
  initDone : Bool
deriving DecidableEq

/-- The `TodoApp` constructor (app.js lines 14-18): empty task list, a fresh
`StorageManager` (whose probed availability and medium contents are the
parameters), `initialized = false`. -/
def TodoApp.new (avail : Bool) (cell : StoreCell) : TodoApp :=
  ⟨[], ⟨avail, [], cell⟩, false⟩

/-- Result of `TodoApp.initialize`: the returned boolean, the new state, and
whether `showStorageWarning` was invoked. -/
structure InitOutcome where
  ret : Bool
  app : TodoApp
  storageWarning : Bool
deriving DecidableEq

/-- `TodoApp.initialize` (app.js lines 25-56), named `initApp` here.  Loads
persisted tasks; on a success result installs them (`loadResult.data || []`),
sets `initialized`, warns when the medium is unavailable, and returns true;
on a failure result installs an empty list, still sets `initialized`, warns,
and returns false. -/
def initApp (app : TodoApp) : InitOutcome :=
  let loadResult := loadTodos app.storageManager
  if loadResult.success then
    ⟨true,
     { app with todos := loadResult.data.getD [], initDone := true },
     !app.storageManager.isLocalStorageAvailable⟩
  else
    ⟨false, { app with todos := [], initDone := true }, true⟩

/-- Result shape of the mutation operations of `TodoApp`. -/
structure OpResult where
  success : Bool
  todo : Option Todo
  deletedTodo : Option Todo
  error : Option Str
deriving DecidableEq

/-- A successful operation result carrying the produced task. -/
def OpResult.okTodo (t : Todo) : OpResult := ⟨true, some t, none, none⟩

/-- A failed operation result with a message. -/
def OpResult.fail (msg : Str) : OpResult := ⟨false, none, none, some msg⟩

/-- `TodoApp.addTodo` (app.js lines 63-94): validate, sanitize and trim the
text, generate an id, construct the `Todo` (a constructor throw is caught and
reported, the state unchanged), push it, save the full list, and pop it again
if the save fails. -/
def addTodo (env : SetItemOutcome) (nowMs : Nat) (rand : Str) (now : Int)
    (app : TodoApp) (text : JSInput) : OpResult × TodoApp :=
  let validationResult := validateTaskText text
  match validationResult with
  | .err _ msg => (.fail msg, app)
  | .ok =>
    let sanitizedText := sanitizeText text
    let trimmedText := jsTrim sanitizedText
    let id := generateId nowMs rand
    match Todo.make id trimmedText false (some now) with
    | none => (.fail (jsStr "タスクの追加に失敗しました"), app)
    | some newTodo =>
      let todos1 := app.todos ++ [newTodo]
      let sv := saveTodos env app.storageManager todos1
      if sv.fst.success then
        (.okTodo newTodo,
         { app with todos := todos1, storageManager := sv.snd })
      else
        (.fail (jsStr "保存に失敗しました"),
         { app with todos := todos1.dropLast, storageManager := sv.snd })

/-- `findIndex` over the task list (app.js lines 109, 146): index of the
first task satisfying the predicate. -/
def findIndexFrom (p : Todo → Bool) : List Todo → Option Nat
  | [] => none
  | t :: ts => if p t then some 0 else (findIndexFrom p ts).map (· + 1)

/-- `this.todos[i] = v` (app.js lines 117, 123). -/
def setIdx : List Todo → Nat → Todo → List Todo
  | [], _, _ => []
  | _ :: ts, 0, v => v :: ts
  | t :: ts, n + 1, v => t :: setIdx ts n v

/-- `this.todos.splice(i, 1)` (app.js line 153): remove the element at `i`. -/
def spliceRemove : List Todo → Nat → List Todo
  | [], _ => []
  | _ :: ts, 0 => ts
  | t :: ts, n + 1 => t :: spliceRemove ts n

/-- `this.todos.splice(i, 0, v)` (app.js line 159): insert `v` at `i`. -/
def spliceInsert : List Todo → Nat → Todo → List Todo
  | l, 0, v => v :: l
  | [], _ + 1, v => [v]
  | t :: ts, n + 1, v => t :: spliceInsert ts n v

/-- `TodoApp.toggleTodo` (app.js lines 101-131): reject a non-string or empty
id, find the task, toggle it (a constructor throw is caught, the state
unchanged), replace it at its position, save, and restore the original at
that position if the save fails. -/
def toggleTodo (env : SetItemOutcome) (app : TodoApp) (rawId : JSInput) :
    OpResult × TodoApp :=
  match rawId with
  | .str id =>
    if id = [] then (.fail (jsStr "IDは文字列である必要があります"), app)
    else
      match findIndexFrom (fun t => t.id = id) app.todos with
      | none => (.fail (jsStr "指定されたIDのタスクが見つかりません"), app)
      | some todoIndex =>
        match app.todos.get? todoIndex with
        | none => (.fail (jsStr "指定されたIDのタスクが見つかりません"), app)
        | some currentTodo =>
          match currentTodo.toggle with
          | none => (.fail (jsStr "タスクの切り替えに失敗しました"), app)
          | some toggledTodo =>
            let todos1 := setIdx app.todos todoIndex toggledTodo
            let sv := saveTodos env app.storageManager todos1
            if sv.fst.success then
              (.okTodo toggledTodo,
               { app with todos := todos1, storageManager := sv.snd })
            else
              (.fail (jsStr "保存に失敗しました"),
               { app with todos := setIdx todos1 todoIndex currentTodo
                          storageManager := sv.snd })
  | _ => (.fail (jsStr "IDは文字列である必要があります"), app)

/-- `TodoApp.deleteTodo` (app.js lines 138-167): reject a non-string or empty
id, find the task, splice it out, save, and splice it back in at its original
index if the save fails. -/
def deleteTodo (env : SetItemOutcome) (app : TodoApp) (rawId : JSInput) :
    OpResult × TodoApp :=
  match rawId with
  | .str id =>
    if id = [] then (.fail (jsStr "IDは文字列である必要があります"), app)
    else
      match findIndexFrom (fun t => t.id = id) app.todos with
      | none => (.fail (jsStr "指定されたIDのタスクが見つかりません"), app)
      | some todoIndex =>
        match app.todos.get? todoIndex with
        | none => (.fail (jsStr "指定されたIDのタスクが見つかりません"), app)
        | some deletedTodo =>
          let todos1 := spliceRemove app.todos todoIndex
          let sv := saveTodos env app.storageManager todos1
          if sv.fst.success then
            (⟨true, none, some deletedTodo, none⟩,
             { app with todos := todos1, storageManager := sv.snd })
          else
            (.fail (jsStr "保存に失敗しました"),
             { app with todos := spliceInsert todos1 todoIndex deletedTodo
                        storageManager := sv.snd })
  | _ => (.fail (jsStr "IDは文字列である必要があります"), app)

/-- `TodoApp.clearAllTodos` (app.js lines 221-237): snapshot, empty the list,
clear storage, and restore the snapshot if the clear fails. -/
def clearAllTodos (removeThrows : Bool) (app : TodoApp) : OpResult × TodoApp :=
  let backup := app.todos
  let cl := clearTodos removeThrows app.storageManager
  if cl.fst.success then
    (⟨true, none, none, none⟩,
     { app with todos := [], storageManager := cl.snd })
  else
    (.fail (jsStr "クリアに失敗しました"),
     { app with todos := backup, storageManager := cl.snd })

/-- `TodoApp.getAllTodos` (app.js lines 173-175): a snapshot copy of the
task list. -/
def getAllTodos (app : TodoApp) : List Todo := app.todos

/-- `TodoApp.getCompletedTodos` (app.js lines 181-183). -/
def getCompletedTodos (app : TodoApp) : List Todo :=
  app.todos.filter fun todo => todo.completed

/-- `TodoApp.getActiveTodos` (app.js lines 189-191). -/
def getActiveTodos (app : TodoApp) : List Todo :=
  app.todos.filter fun todo => !todo.completed

/-- `TodoApp.getTodoCount` (app.js lines 197-199). -/
def getTodoCount (app : TodoApp) : Nat := app.todos.length

/-- `TodoApp.getCompletedCount` (app.js lines 205-207). -/
def getCompletedCount (app : TodoApp) : Nat :=
  (app.todos.filter fun todo => todo.completed).length

/-- `TodoApp.getActiveCount` (app.js lines 213-215). -/
def getActiveCount (app : TodoApp) : Nat :=
  (app.todos.filter fun todo => !todo.completed).length

/-! ## Basic lemmas about the string model -/

theorem dropWhile_idem (p : Char → Bool) (l : Str) :
    (l.dropWhile p).dropWhile p = l.dropWhile p := by
  induction l with
  | nil => rfl
  | cons c t ih =>
    by_cases h : p c
    · rw [List.dropWhile_cons_of_pos h]; exact ih
    · simp [List.dropWhile_cons_of_neg h, h]

theorem trimLeft_head?_not (s : Str) :
    ∀ c, (trimLeft s).head? = some c → c.isWhitespace = false := by
  intro c hc
  have h := List.head?_dropWhile_not (fun c => c.isWhitespace) s
  unfold trimLeft at hc
  rw [hc] at h
  exact h

theorem trimLeft_eq_self (l : Str)
    (h : ∀ c, l.head? = some c → c.isWhitespace = false) : trimLeft l = l := by
  cases l with
  | nil => rfl
  | cons c t =>
    have hc := h c rfl
    unfold trimLeft
    simp [List.dropWhile_cons, hc]

theorem trimLeft_trimLeft (s : Str) : trimLeft (trimLeft s) = trimLeft s :=
  dropWhile_idem _ s

theorem trimRight_trimRight (s : Str) : trimRight (trimRight s) = trimRight s := by
  unfold trimRight
  rw [List.reverse_reverse, trimLeft_trimLeft]

theorem trimRight_head? (z : Str) (h : trimRight z ≠ []) :
    (trimRight z).head? = z.head? := by
  obtain ⟨u, hu⟩ := List.dropWhile_suffix (l := z.reverse) fun c => c.isWhitespace
  have hu2 : u ++ trimLeft z.reverse = z.reverse := hu
  have hz : z = (trimLeft z.reverse).reverse ++ u.reverse := by
    have h2 := congrArg List.reverse hu2
    rw [List.reverse_append, List.reverse_reverse] at h2
    exact h2.symm
  have hgoal : trimRight z = (trimLeft z.reverse).reverse := rfl
  conv_rhs => rw [hz]
  rw [List.head?_append, hgoal]
  cases hc : (trimLeft z.reverse).reverse.head? with
  | none =>
    have hnil : (trimLeft z.reverse).reverse = [] := by
      cases hl : (trimLeft z.reverse).reverse with
      | nil => rfl
      | cons a t => rw [hl] at hc; cases hc
    exact absurd (hgoal.trans hnil) h
  | some c => rfl

theorem jsTrim_head?_not (s : Str) :
    ∀ c, (jsTrim s).head? = some c → c.isWhitespace = false := by
  intro c hc
  unfold jsTrim at hc
  have hne : trimRight (trimLeft s) ≠ [] := by
    intro hnil; rw [hnil] at hc; cases hc
  rw [trimRight_head? _ hne] at hc
  exact trimLeft_head?_not s c hc

theorem jsTrim_idem (s : Str) : jsTrim (jsTrim s) = jsTrim s := by
  have h1 : trimLeft (jsTrim s) = jsTrim s :=
    trimLeft_eq_self _ (jsTrim_head?_not s)
  show trimRight (trimLeft (jsTrim s)) = jsTrim s
  rw [h1]
  show trimRight (trimRight (trimLeft s)) = jsTrim s
  rw [trimRight_trimRight]
  rfl

theorem mem_dropWhile_of_not (p : Char → Bool) (l : Str) (c : Char)
    (hc : c ∈ l) (hp : p c = false) : c ∈ l.dropWhile p := by
  have := List.takeWhile_append_dropWhile p l
  rw [← this] at hc
  rcases List.mem_append.mp hc with h | h
  · exact absurd (List.mem_takeWhile_imp h) (by simp [hp])
  · exact h

theorem jsTrim_ne_nil (s : Str) (c : Char) (hc : c ∈ s)
    (hp : c.isWhitespace = false) : jsTrim s ≠ [] := by
  have h1 : c ∈ trimLeft s := mem_dropWhile_of_not _ s c hc hp
  have h2 : c ∈ (trimLeft s).reverse := List.mem_reverse.mpr h1
  have h3 : c ∈ trimLeft (trimLeft s).reverse :=
    mem_dropWhile_of_not _ _ c h2 hp
  have h4 : c ∈ jsTrim s := by
    show c ∈ trimRight (trimLeft s)
    exact List.mem_reverse.mpr h3
  exact List.ne_nil_of_mem h4

theorem jsTrim_nil_of_all_ws (s : Str) (h : ∀ c ∈ s, c.isWhitespace = true) :
    jsTrim s = [] := by
  have h1 : trimLeft s = [] := by
    unfold trimLeft
    rw [List.dropWhile_eq_nil_iff]
    exact h
  show trimRight (trimLeft s) = []
  rw [h1]; rfl

/-! ## Lemmas about validation and the Todo constructor -/

theorem make_eq_some (id text : Str) (b : Bool) (c : Int) (t : Todo)
    (h : Todo.make id text b (some c) = some t) :
    t = ⟨id, text, b, c⟩ ∧ validIdOk id = true ∧ validTextOk text = true := by
  unfold Todo.make at h
  by_cases h1 : validIdOk id
  · by_cases h2 : validTextOk text
    · simp [h1, h2] at h
      exact ⟨h.symm, h1, h2⟩
    · simp [h1, h2] at h
  · simp [h1] at h

theorem make_WF (id text : Str) (b : Bool) (c : Option Int) (t : Todo)
    (h : Todo.make id text b c = some t) : t.WF := by
  cases c with
  | none =>
    unfold Todo.make at h
    by_cases h1 : validIdOk id <;> by_cases h2 : validTextOk text <;>
      simp [h1, h2] at h
  | some c0 =>
    obtain ⟨ht, h1, h2⟩ := make_eq_some id text b c0 t h
    subst ht
    exact ⟨h1, h2⟩

theorem make_some_of_valid (id text : Str) (b : Bool) (c : Int)
    (h1 : validIdOk id = true) (h2 : validTextOk text = true) :
    Todo.make id text b (some c) = some ⟨id, text, b, c⟩ := by
  unfold Todo.make
  simp [h1, h2]

theorem fromJSON_WF (r : RawRecord) (t : Todo)
    (h : Todo.fromJSON r = some t) : t.WF := by
  unfold Todo.fromJSON at h
  rcases hid : primAsString r.id with _ | id <;> rw [hid] at h
  · cases h
  rcases htx : primAsString r.text with _ | tx <;> rw [htx] at h
  · cases h
  rcases hb : r.completed with s | ti | n | b | _ | _ <;> rw [hb] at h <;>
    first
    | cases h
    | exact make_WF _ _ _ _ _ h

theorem loadTodos_success (sm : StorageManager) : (loadTodos sm).success = true := by
  unfold loadTodos
  cases h : sm.isLocalStorageAvailable
  · simp
    split <;> rfl
  · simp
    cases sm.localData <;> rfl

theorem loadTodos_data_WF (sm : StorageManager) (l : List Todo)
    (h : (loadTodos sm).data = some l) : ∀ t ∈ l, t.WF := by
  unfold loadTodos at h
  cases havail : sm.isLocalStorageAvailable <;> rw [havail] at h <;> simp at h
  · split at h <;> simp at h
    · subst h; intro t ht; cases ht
    · intro t ht
      rw [← h] at ht
      obtain ⟨r, _, hr⟩ := List.mem_filterMap.mp ht
      exact fromJSON_WF r t hr
  · cases hd : sm.localData <;> rw [hd] at h <;> simp at h
    · subst h; intro t ht; cases ht
    · subst h; intro t ht; cases ht
    · intro t ht
      rw [← h] at ht
      obtain ⟨r, _, hr⟩ := List.mem_filterMap.mp ht
      exact fromJSON_WF r t hr

/-! ## C10: the read projections partition the sequence -/

theorem length_filter_partition (l : List Todo) :
    l.length = (l.filter fun t => t.completed).length +
      (l.filter fun t => !t.completed).length := by
  induction l with
  | nil => rfl
  | cons t ts ih =>
    cases h : t.completed <;> simp [List.filter_cons, h, ih] <;> omega

/-- C10: in every registry state, `totalCount` equals `completedCount` plus
`activeCount`, every task counted by `completedCount` has `completed = true`,
and every task counted by `activeCount` has `completed = false`. -/
theorem claim_C10_counts (app : TodoApp) :
    getTodoCount app = getCompletedCount app + getActiveCount app ∧
    (∀ t ∈ getCompletedTodos app, t.completed = true) ∧
    (∀ t ∈ getActiveTodos app, t.completed = false) := by
  refine ⟨length_filter_partition app.todos, ?_, ?_⟩
  · intro t ht
    have := (List.mem_filter.mp ht).2
    simpa using this
  · intro t ht
    have := (List.mem_filter.mp ht).2
    simpa using this

/-! ## C9: validation rule order -/

/-- The rule order stated by the spec: NotAString, Empty, TooLong,
UnsafeContent, first failure wins (`none` = valid).  This definition follows
the specification's words and is compared against `validateTaskText`. -/
def specRuleOrder (x : JSInput) : Option VKind :=
  match x with
  | .str s =>
    let tr := jsTrim s
    if tr.length = 0 then some .empty
    else if tr.length > 200 then some .tooLong
    else if containsUnsafeCharacters tr then some .unsafeContent
    else none
  | _ => some .notAString

/-- C9: `validateTaskText` applies its rules in the order NotAString, Empty,
TooLong, UnsafeContent and reports the first failing rule; a non-string or
absent value yields NotAString, trimmed length 0 yields Empty, trimmed length
over 200 yields TooLong, a trimmed text matching an unsafe pattern yields
UnsafeContent, and otherwise the outcome is valid. -/
theorem claim_C9_rule_order (x : JSInput) :
    (validateTaskText x).kind? = specRuleOrder x := by
  cases x with
  | str s =>
    unfold validateTaskText specRuleOrder
    by_cases h0 : (jsTrim s).length = 0
    · simp [h0, VResult.kind?]
    · by_cases h2 : (jsTrim s).length > 200
      · simp [h0, h2, VResult.kind?]
      · have h1 : ¬ (jsTrim s).length < 1 := by omega
        by_cases h3 : containsUnsafeCharacters (jsTrim s)
        · simp [h0, h2, h1, h3, VResult.kind?]
        · simp [h0, h2, h1, h3, VResult.kind?]
  | null => rfl
  | undefined => rfl
  | other => rfl

/-! ## C5: load always succeeds and isolates corruption per record -/

/-- C5: `loadTodos` always returns a success result; when the medium holds a
serialized sequence, each record is parsed independently and exactly the
records that parse into a valid `Todo` are returned, in order (the rest are
dropped); a top-level parse failure of the container yields success with an
empty sequence. -/
theorem claim_C5_load_isolation (sm : StorageManager) :
    (loadTodos sm).success = true ∧
    (∀ rs, sm.isLocalStorageAvailable = true → sm.localData = .records rs →
      (loadTodos sm).data = some (rs.filterMap Todo.fromJSON)) ∧
    (sm.isLocalStorageAvailable = true → sm.localData = .corrupt →
      (loadTodos sm).data = some []) := by
  refine ⟨loadTodos_success sm, ?_, ?_⟩
  · intro rs havail hd
    unfold loadTodos
    rw [havail, hd]
    rfl
  · intro havail hd
    unfold loadTodos
    rw [havail, hd]
    rfl

/-- Witness for C5: a store holding one well-formed and one malformed record
loads successfully as exactly the well-formed one. -/
theorem claim_C5_load_isolation_witness :
    (loadTodos ⟨true, [],
      .records [⟨.str (jsStr "todo_1"), .str (jsStr "buy milk"), .bool false,
                 .isoDate 5⟩,
                ⟨.null, .num 3, .bool true, .undefined⟩]⟩).success = true ∧
    (loadTodos ⟨true, [],
      .records [⟨.str (jsStr "todo_1"), .str (jsStr "buy milk"), .bool false,
                 .isoDate 5⟩,
                ⟨.null, .num 3, .bool true, .undefined⟩]⟩).data =
      some [⟨jsStr "todo_1", jsStr "buy milk", false, 5⟩] := by
  have h := claim_C5_load_isolation ⟨true, [],
      .records [⟨.str (jsStr "todo_1"), .str (jsStr "buy milk"), .bool false,
                 .isoDate 5⟩,
                ⟨.null, .num 3, .bool true, .undefined⟩]⟩
  refine ⟨h.1, ?_⟩
  rw [h.2.1 _ rfl rfl]
  decide

/-! ## C6: the save fallback (corrected) -/

/-- Counterexample to C6: when the primary write raises a storage-quota
error, `saveTodos` reports the quota error immediately WITHOUT attempting a
fallback write — the fallback buffer still holds its old (empty) value
instead of the serialized sequence. -/
theorem claim_C6_cex :
    (saveTodos .throwQuota ⟨true, [], .absent⟩
       [⟨jsStr "todo_1", jsStr "buy milk", false, 5⟩]).fst.success = false ∧
    (saveTodos .throwQuota ⟨true, [], .absent⟩
       [⟨jsStr "todo_1", jsStr "buy milk", false, 5⟩]).fst.error =
      some quotaMsg ∧
    (saveTodos .throwQuota ⟨true, [], .absent⟩
       [⟨jsStr "todo_1", jsStr "buy milk", false, 5⟩]).snd.fallbackData = [] := by
  decide

/-- C6 (amended): a storage-quota exception from the primary write is caught
and reported as the distinguishable quota error kind, with no fallback
attempt and no state change; any other exception from the primary write is
caught and triggers one fallback write of the serialized sequence to the
in-memory buffer, after which the save reports success. -/
theorem claim_C6_fallback (env : SetItemOutcome) (sm : StorageManager)
    (todos : List Todo) (havail : sm.isLocalStorageAvailable = true) :
    (env = .throwQuota →
      (saveTodos env sm todos).fst.success = false ∧
      (saveTodos env sm todos).fst.error = some quotaMsg ∧
      (saveTodos env sm todos).snd = sm) ∧
    (env = .throwOther →
      (saveTodos env sm todos).fst.success = true ∧
      (saveTodos env sm todos).snd.fallbackData = todos.map Todo.toJSON) := by
  constructor
  · rintro rfl
    unfold saveTodos
    rw [havail]
    exact ⟨rfl, rfl, rfl⟩
  · rintro rfl
    unfold saveTodos
    rw [havail]
    exact ⟨rfl, rfl⟩

/-- Witness for C6 (amended), at a concrete state and task list. -/
theorem claim_C6_fallback_witness :
    (saveTodos .throwOther ⟨true, [], .absent⟩
       [⟨jsStr "todo_1", jsStr "buy milk", false, 5⟩]).fst.success = true ∧
    (saveTodos .throwOther ⟨true, [], .absent⟩
       [⟨jsStr "todo_1", jsStr "buy milk", false, 5⟩]).snd.fallbackData =
      [⟨.str (jsStr "todo_1"), .str (jsStr "buy milk"), .bool false,
        .isoDate 5⟩] := by
  have h := (claim_C6_fallback .throwOther ⟨true, [], .absent⟩
    [⟨jsStr "todo_1", jsStr "buy milk", false, 5⟩] rfl).2 rfl
  exact ⟨h.1, by rw [h.2]; decide⟩

/-! ## C7: initialization (corrected) -/

/-- Counterexample to C7: with the durable medium unavailable and the
fallback buffer in use (degraded load), `initialize` still returns true —
the claim that it returns true only when the load succeeded without
degradation is false. -/
theorem claim_C7_cex :
    (initApp ⟨[], ⟨false,
       [⟨.str (jsStr "todo_1"), .str (jsStr "buy milk"), .bool false,
         .isoDate 5⟩], .absent⟩, false⟩).ret = true ∧
    (⟨false, [⟨.str (jsStr "todo_1"), .str (jsStr "buy milk"), .bool false,
       .isoDate 5⟩], .absent⟩ : StorageManager).isLocalStorageAvailable =
      false ∧
    (⟨false, [⟨.str (jsStr "todo_1"), .str (jsStr "buy milk"), .bool false,
       .isoDate 5⟩], .absent⟩ : StorageManager).fallbackData ≠ [] := by
  decide

/-- C7 (amended): `initialize` always transitions the registry to
`initialized = true`; because `loadTodos` always reports success, it always
returns true — including when the durable medium is unavailable and the
fallback buffer is in use — and it signals the storage warning exactly when
the durable medium is unavailable. -/
theorem claim_C7_init (app : TodoApp) :
    (initApp app).app.initDone = true ∧
    (initApp app).ret = true ∧
    (initApp app).storageWarning = !app.storageManager.isLocalStorageAvailable := by
  simp [initApp, loadTodos_success]

/-! ## C4: save/load round-trip -/

theorem fromJSON_toJSON (t : Todo) (h : t.WF) :
    Todo.fromJSON (Todo.toJSON t) = some t := by
  obtain ⟨h1, h2⟩ := h
  show Todo.fromJSON ⟨.str t.id, .str t.text, .bool t.completed,
    .isoDate t.createdAt⟩ = some t
  unfold Todo.fromJSON primAsString parseDateJS
  simp only
  rw [make_some_of_valid t.id t.text t.completed t.createdAt h1 h2]

theorem filterMap_fromJSON_map_toJSON (todos : List Todo)
    (h : ∀ t ∈ todos, t.WF) :
    (todos.map Todo.toJSON).filterMap Todo.fromJSON = todos := by
  induction todos with
  | nil => rfl
  | cons t ts ih =>
    rw [List.map_cons, List.filterMap_cons,
      fromJSON_toJSON t (h t (List.mem_cons_self t ts))]
    rw [ih fun x hx => h x (List.mem_cons_of_mem t hx)]

/-- The id, text and completed projection the round-trip claim compares. -/
def idTextCompleted (t : Todo) : Str × Str × Bool := (t.id, t.text, t.completed)

/-- C4: for every sequence of well-formed tasks, saving it (with the medium
behaving normally, `SetItemOutcome.ok`) and then loading returns a success
result whose data has, position by position, the same id, text and completed
flag as the saved tasks. -/
theorem claim_C4_roundtrip (sm : StorageManager) (todos : List Todo)
    (hwf : ∀ t ∈ todos, t.WF) :
    (saveTodos .ok sm todos).fst.success = true ∧
    (loadTodos (saveTodos .ok sm todos).snd).success = true ∧
    ((loadTodos (saveTodos .ok sm todos).snd).data).map
        (List.map idTextCompleted) =
      some (todos.map idTextCompleted) := by
  refine ⟨?_, loadTodos_success _, ?_⟩
  · unfold saveTodos
    cases h : sm.isLocalStorageAvailable <;> simp
  · cases h : sm.isLocalStorageAvailable
    · unfold saveTodos
      rw [h]
      unfold loadTodos
      simp only [h, Bool.false_eq_true, if_false]
      cases htodos : todos with
      | nil => simp
      | cons t ts =>
        subst htodos
        simp only [List.map_cons, List.isEmpty_cons, if_false]
        rw [← List.map_cons, filterMap_fromJSON_map_toJSON (t :: ts) hwf]
        simp
    · unfold saveTodos
      rw [h]
      unfold loadTodos
      simp only [h, if_true]
      rw [filterMap_fromJSON_map_toJSON todos hwf]
      simp

/-- Witness for C4, at a concrete two-task sequence. -/
theorem claim_C4_roundtrip_witness :
    (saveTodos .ok ⟨true, [], .absent⟩
       [⟨jsStr "todo_1", jsStr "buy milk", false, 5⟩,
        ⟨jsStr "todo_2", jsStr "walk", true, 6⟩]).fst.success = true ∧
    (loadTodos (saveTodos .ok ⟨true, [], .absent⟩
       [⟨jsStr "todo_1", jsStr "buy milk", false, 5⟩,
        ⟨jsStr "todo_2", jsStr "walk", true, 6⟩]).snd).data.map
        (List.map idTextCompleted) =
      some [(jsStr "todo_1", jsStr "buy milk", false),
            (jsStr "todo_2", jsStr "walk", true)] := by
  have h := claim_C4_roundtrip ⟨true, [], .absent⟩
    [⟨jsStr "todo_1", jsStr "buy milk", false, 5⟩,
     ⟨jsStr "todo_2", jsStr "walk", true, 6⟩] (by decide)
  refine ⟨h.1, ?_⟩
  rw [h.2.2]
  decide

/-! ## Lemmas about the index-based list operations of `TodoApp` -/

theorem saveTodos_fail_iff (env : SetItemOutcome) (sm : StorageManager)
    (todos : List Todo) :
    (saveTodos env sm todos).fst.success = false ↔
      sm.isLocalStorageAvailable = true ∧ env = .throwQuota := by
  cases h : sm.isLocalStorageAvailable <;> cases env <;>
    simp [saveTodos, h]

theorem saveTodos_avail (env : SetItemOutcome) (sm : StorageManager)
    (todos : List Todo) :
    (saveTodos env sm todos).snd.isLocalStorageAvailable =
      sm.isLocalStorageAvailable := by
  cases h : sm.isLocalStorageAvailable <;> cases env <;>
    simp [saveTodos, h]

theorem saveTodos_quota_unchanged (sm : StorageManager) (todos : List Todo)
    (h : sm.isLocalStorageAvailable = true) :
    (saveTodos .throwQuota sm todos).snd = sm := by
  unfold saveTodos
  rw [h]
  rfl

theorem findIndexFrom_get? (p : Todo → Bool) (l : List Todo) (i : Nat)
    (h : findIndexFrom p l = some i) :
    ∃ t, l.get? i = some t ∧ p t = true := by
  induction l generalizing i with
  | nil => cases h
  | cons t ts ih =>
    unfold findIndexFrom at h
    by_cases hp : p t
    · rw [if_pos hp] at h
      cases h
      exact ⟨t, rfl, hp⟩
    · rw [if_neg hp] at h
      cases hrec : findIndexFrom p ts with
      | none => rw [hrec] at h; cases h
      | some j =>
        rw [hrec] at h
        simp at h
        obtain ⟨u, hu, hpu⟩ := ih j hrec
        exact ⟨u, by rw [← h]; exact hu, hpu⟩

theorem setIdx_setIdx (l : List Todo) (i : Nat) (a b : Todo) :
    setIdx (setIdx l i a) i b = setIdx l i b := by
  induction l generalizing i with
  | nil => rfl
  | cons t ts ih =>
    cases i with
    | zero => rfl
    | succ n => simp [setIdx, ih]

theorem setIdx_self (l : List Todo) (i : Nat) (a : Todo)
    (h : l.get? i = some a) : setIdx l i a = l := by
  induction l generalizing i with
  | nil => cases h
  | cons t ts ih =>
    cases i with
    | zero => cases h; rfl
    | succ n =>
      simp [setIdx]
      exact ih n h

theorem setIdx_get? (l : List Todo) (i : Nat) (a v : Todo)
    (h : l.get? i = some a) : (setIdx l i v).get? i = some v := by
  induction l generalizing i with
  | nil => cases h
  | cons t ts ih =>
    cases i with
    | zero => rfl
    | succ n => exact ih n h

theorem findIndexFrom_setIdx (p : Todo → Bool) (l : List Todo) (i : Nat)
    (v : Todo) (h : findIndexFrom p l = some i) (hv : p v = true) :
    findIndexFrom p (setIdx l i v) = some i := by
  induction l generalizing i with
  | nil => cases h
  | cons t ts ih =>
    unfold findIndexFrom at h
    by_cases hp : p t
    · rw [if_pos hp] at h
      cases h
      simp [setIdx, findIndexFrom, hv]
    · rw [if_neg hp] at h
      cases i with
      | zero =>
        simp [setIdx, findIndexFrom, hv]
      | succ n =>
        cases hrec : findIndexFrom p ts with
        | none => rw [hrec] at h; cases h
        | some j =>
          rw [hrec] at h
          simp at h
          subst h
          simp [setIdx, findIndexFrom, hp]
          exact ih j hrec

theorem spliceInsert_spliceRemove (l : List Todo) (i : Nat) (a : Todo)
    (h : l.get? i = some a) : spliceInsert (spliceRemove l i) i a = l := by
  induction l generalizing i with
  | nil => cases h
  | cons t ts ih =>
    cases i with
    | zero =>
      simp only [List.get?] at h
      cases h
      simp [spliceRemove, spliceInsert]
    | succ n =>
      simp [spliceRemove, spliceInsert]
      exact ih n h

theorem mem_setIdx (l : List Todo) (i : Nat) (v x : Todo)
    (h : x ∈ setIdx l i v) : x ∈ l ∨ x = v := by
  induction l generalizing i with
  | nil => cases h
  | cons t ts ih =>
    cases i with
    | zero =>
      rcases List.mem_cons.mp h with h1 | h1
      · right; exact h1
      · left; exact List.mem_cons_of_mem t h1
    | succ n =>
      rcases List.mem_cons.mp h with h1 | h1
      · left; rw [h1]; exact List.mem_cons_self t ts
      · rcases ih n h1 with h2 | h2
        · left; exact List.mem_cons_of_mem t h2
        · right; exact h2

theorem mem_spliceRemove (l : List Todo) (i : Nat) (x : Todo)
    (h : x ∈ spliceRemove l i) : x ∈ l := by
  induction l generalizing i with
  | nil => cases h
  | cons t ts ih =>
    cases i with
    | zero => exact List.mem_cons_of_mem t h
    | succ n =>
      rcases List.mem_cons.mp h with h1 | h1
      · rw [h1]; exact List.mem_cons_self t ts
      · exact List.mem_cons_of_mem t (ih n h1)

theorem mem_spliceInsert (l : List Todo) (i : Nat) (v x : Todo)
    (h : x ∈ spliceInsert l i v) : x ∈ l ∨ x = v := by
  induction l generalizing i with
  | nil =>
    cases i with
    | zero => rcases List.mem_cons.mp h with h1 | h1
              · right; exact h1
              · cases h1
    | succ n => rcases List.mem_cons.mp h with h1 | h1
                · right; exact h1
                · cases h1
  | cons t ts ih =>
    cases i with
    | zero =>
      rcases List.mem_cons.mp h with h1 | h1
      · right; exact h1
      · left; exact h1
    | succ n =>
      rcases List.mem_cons.mp h with h1 | h1
      · left; rw [h1]; exact List.mem_cons_self t ts
      · rcases ih n h1 with h2 | h2
        · left; exact List.mem_cons_of_mem t h2
        · right; exact h2

/-! ## C1: rollback on forced persistence failure -/

/-- C1: for every registry state and every environment under which
`saveTodos` is forced to fail, each of `addTodo`, `toggleTodo` and
`deleteTodo` returns a result with `success = false` and leaves the task
sequence observed via `getAllTodos` identical (same tasks, same order) to
its value before the call. -/
theorem claim_C1_rollback (env : SetItemOutcome) (app : TodoApp)
    (hfail : ∀ ts, (saveTodos env app.storageManager ts).fst.success = false) :
    (∀ nowMs rand now text,
       (addTodo env nowMs rand now app text).fst.success = false ∧
       getAllTodos (addTodo env nowMs rand now app text).snd =
         getAllTodos app) ∧
    (∀ rawId, (toggleTodo env app rawId).fst.success = false ∧
       getAllTodos (toggleTodo env app rawId).snd = getAllTodos app) ∧
    (∀ rawId, (deleteTodo env app rawId).fst.success = false ∧
       getAllTodos (deleteTodo env app rawId).snd = getAllTodos app) := by
  refine ⟨?_, ?_, ?_⟩
  · intro nowMs rand now text
    unfold addTodo
    cases hv : validateTaskText text with
    | err k m => exact ⟨rfl, rfl⟩
    | ok =>
      simp only
      cases hm : Todo.make (generateId nowMs rand)
          (jsTrim (sanitizeText text)) false (some now) with
      | none => exact ⟨rfl, rfl⟩
      | some newTodo =>
        simp only [hfail (app.todos ++ [newTodo]), Bool.false_eq_true,
          if_false]
        exact ⟨rfl, by simp [getAllTodos, List.dropLast_concat]⟩
  · intro rawId
    unfold toggleTodo
    cases rawId with
    | null => exact ⟨rfl, rfl⟩
    | undefined => exact ⟨rfl, rfl⟩
    | other => exact ⟨rfl, rfl⟩
    | str id =>
      by_cases hid : id = []
      · simp only [hid, if_pos rfl]
        exact ⟨rfl, rfl⟩
      · simp only [if_neg hid]
        cases hfind : findIndexFrom (fun t => t.id = id) app.todos with
        | none => exact ⟨rfl, rfl⟩
        | some i =>
          obtain ⟨cur, hget, hp⟩ := findIndexFrom_get? _ _ _ hfind
          simp only [hget]
          cases htog : cur.toggle with
          | none => exact ⟨rfl, rfl⟩
          | some toggled =>
            simp only [hfail (setIdx app.todos i toggled),
              Bool.false_eq_true, if_false]
            refine ⟨rfl, ?_⟩
            simp only [getAllTodos]
            rw [setIdx_setIdx, setIdx_self app.todos i cur hget]
  · intro rawId
    unfold deleteTodo
    cases rawId with
    | null => exact ⟨rfl, rfl⟩
    | undefined => exact ⟨rfl, rfl⟩
    | other => exact ⟨rfl, rfl⟩
    | str id =>
      by_cases hid : id = []
      · simp only [hid, if_pos rfl]
        exact ⟨rfl, rfl⟩
      · simp only [if_neg hid]
        cases hfind : findIndexFrom (fun t => t.id = id) app.todos with
        | none => exact ⟨rfl, rfl⟩
        | some i =>
          obtain ⟨del, hget, hp⟩ := findIndexFrom_get? _ _ _ hfind
          simp only [hget]
          simp only [hfail (spliceRemove app.todos i), Bool.false_eq_true,
            if_false]
          refine ⟨rfl, ?_⟩
          simp only [getAllTodos]
          rw [spliceInsert_spliceRemove app.todos i del hget]

/-- Witness for C1: a concrete state with one task, the medium available and
`setItem` throwing a quota error, for each of the three operations. -/
theorem claim_C1_rollback_witness :
    (addTodo .throwQuota 7 (jsStr "r") 9
       ⟨[⟨jsStr "todo_1", jsStr "buy milk", false, 5⟩], ⟨true, [], .absent⟩,
        true⟩ (.str (jsStr "new task"))).fst.success = false ∧
    getAllTodos (addTodo .throwQuota 7 (jsStr "r") 9
       ⟨[⟨jsStr "todo_1", jsStr "buy milk", false, 5⟩], ⟨true, [], .absent⟩,
        true⟩ (.str (jsStr "new task"))).snd =
      [⟨jsStr "todo_1", jsStr "buy milk", false, 5⟩] ∧
    (toggleTodo .throwQuota
       ⟨[⟨jsStr "todo_1", jsStr "buy milk", false, 5⟩], ⟨true, [], .absent⟩,
        true⟩ (.str (jsStr "todo_1"))).fst.success = false ∧
    getAllTodos (toggleTodo .throwQuota
       ⟨[⟨jsStr "todo_1", jsStr "buy milk", false, 5⟩], ⟨true, [], .absent⟩,
        true⟩ (.str (jsStr "todo_1"))).snd =
      [⟨jsStr "todo_1", jsStr "buy milk", false, 5⟩] ∧
    (deleteTodo .throwQuota
       ⟨[⟨jsStr "todo_1", jsStr "buy milk", false, 5⟩], ⟨true, [], .absent⟩,
        true⟩ (.str (jsStr "todo_1"))).fst.success = false ∧
    getAllTodos (deleteTodo .throwQuota
       ⟨[⟨jsStr "todo_1", jsStr "buy milk", false, 5⟩], ⟨true, [], .absent⟩,
        true⟩ (.str (jsStr "todo_1"))).snd =
      [⟨jsStr "todo_1", jsStr "buy milk", false, 5⟩] := by
  have h := claim_C1_rollback .throwQuota
    ⟨[⟨jsStr "todo_1", jsStr "buy milk", false, 5⟩], ⟨true, [], .absent⟩,
     true⟩ (fun ts => rfl)
  refine ⟨(h.1 7 (jsStr "r") 9 (.str (jsStr "new task"))).1,
    (h.1 7 (jsStr "r") 9 (.str (jsStr "new task"))).2,
    (h.2.1 (.str (jsStr "todo_1"))).1,
    (h.2.1 (.str (jsStr "todo_1"))).2,
    (h.2.2 (.str (jsStr "todo_1"))).1,
    (h.2.2 (.str (jsStr "todo_1"))).2⟩

/-! ## C2: adding a valid text (corrected) -/

theorem exists_mem_not_ws (s : Str) (h : jsTrim s ≠ []) :
    ∃ c ∈ s, c.isWhitespace = false := by
  by_contra hc
  push_neg at hc
  apply h
  apply jsTrim_nil_of_all_ws
  intro c hcs
  have := hc c hcs
  simpa using this

theorem escapeChar_has_not_ws (c : Char) (hw : c.isWhitespace = false) :
    ∃ d ∈ escapeChar c, d.isWhitespace = false := by
  unfold escapeChar
  split_ifs
  · exact ⟨'&', by decide, by decide⟩
  · exact ⟨'&', by decide, by decide⟩
  · exact ⟨'&', by decide, by decide⟩
  · exact ⟨'&', by decide, by decide⟩
  · exact ⟨'&', by decide, by decide⟩
  · exact ⟨c, List.mem_cons_self c [], hw⟩

theorem htmlEscape_has_not_ws (s : Str) (c : Char) (hc : c ∈ s)
    (hw : c.isWhitespace = false) :
    ∃ d ∈ htmlEscape s, d.isWhitespace = false := by
  obtain ⟨d, hd, hdw⟩ := escapeChar_has_not_ws c hw
  exact ⟨d,
    List.mem_flatten.mpr ⟨escapeChar c, List.mem_map_of_mem _ hc, hd⟩, hdw⟩

theorem generateId_validId (nowMs : Nat) (rand : Str) :
    validIdOk (generateId nowMs rand) = true := by
  have hmem : 't' ∈ generateId nowMs rand := by
    unfold generateId
    exact List.mem_append_left _
      (List.mem_append_left _ (List.mem_append_left _ (by decide)))
  have hne : generateId nowMs rand ≠ [] := List.ne_nil_of_mem hmem
  have htr : jsTrim (generateId nowMs rand) ≠ [] :=
    jsTrim_ne_nil _ 't' hmem (by decide)
  unfold validIdOk
  rw [if_neg hne, if_neg fun h0 => htr (List.length_eq_zero.mp h0)]

theorem validateTaskText_ok (t : Str) (h1 : (jsTrim t).length ≠ 0)
    (h2 : ¬ (jsTrim t).length > 200)
    (h3 : containsUnsafeCharacters (jsTrim t) = false) :
    validateTaskText (.str t) = .ok := by
  unfold validateTaskText
  simp only
  rw [if_neg h1, if_neg h2, if_neg (by omega), if_neg (by simp [h3])]

theorem validTextOk_of (text : Str) (hne : text ≠ [])
    (h1 : (jsTrim text).length ≠ 0) (h2 : ¬ (jsTrim text).length > 200) :
    validTextOk text = true := by
  unfold validTextOk
  rw [if_neg hne]
  simp only
  rw [if_neg h1, if_neg h2]

theorem saveTodos_success_of (env : SetItemOutcome) (sm : StorageManager)
    (todos : List Todo)
    (h : ¬ (sm.isLocalStorageAvailable = true ∧ env = .throwQuota)) :
    (saveTodos env sm todos).fst.success = true := by
  cases hs : (saveTodos env sm todos).fst.success
  · exact absurd ((saveTodos_fail_iff env sm todos).mp hs) h
  · rfl

set_option maxRecDepth 4000 in
/-- Counterexample to C2: the 41-character text consisting of `&` characters
is valid by the claim's own conditions (trimmed length 41, no unsafe
pattern), yet `addTodo` fails on it and leaves the count unchanged, because
sanitization expands each `&` to `&amp;` (205 characters) and the `Todo`
constructor then rejects the text as longer than 200 characters. -/
theorem claim_C2_cex :
    (validateTaskText (.str (List.replicate 41 '&'))).isValid = true ∧
    (jsTrim (List.replicate 41 '&')).length = 41 ∧
    containsUnsafeCharacters (jsTrim (List.replicate 41 '&')) = false ∧
    (jsTrim (htmlEscape (List.replicate 41 '&'))).length = 205 ∧
    (addTodo .ok 7 (jsStr "r") 9 (TodoApp.new true .absent)
       (.str (List.replicate 41 '&'))).fst.success = false ∧
    getTodoCount (addTodo .ok 7 (jsStr "r") 9 (TodoApp.new true .absent)
       (.str (List.replicate 41 '&'))).snd =
      getTodoCount (TodoApp.new true .absent) := by
  decide

/-- C2 (amended): for every string whose trimmed length is between 1 and 200,
which matches no unsafe-content pattern, and whose sanitized (HTML-escaped
and trimmed) form also has length at most 200, `addTodo` succeeds (assuming
the persistence save succeeds, i.e. the medium is not both available and
quota-exhausted) and the total count increases by exactly one. -/
theorem claim_C2_add_valid (env : SetItemOutcome) (nowMs : Nat) (rand : Str)
    (now : Int) (app : TodoApp) (t : Str)
    (h1 : 1 ≤ (jsTrim t).length) (h2 : (jsTrim t).length ≤ 200)
    (h3 : containsUnsafeCharacters (jsTrim t) = false)
    (hsan : (jsTrim (htmlEscape t)).length ≤ 200)
    (hsave : ¬ (app.storageManager.isLocalStorageAvailable = true ∧
      env = .throwQuota)) :
    (addTodo env nowMs rand now app (.str t)).fst.success = true ∧
    getTodoCount (addTodo env nowMs rand now app (.str t)).snd =
      getTodoCount app + 1 := by
  have hvok : validateTaskText (.str t) = .ok :=
    validateTaskText_ok t (by omega) (by omega) h3
  have htne : t ≠ [] := by
    intro h
    rw [h] at h1
    exact absurd h1 (by decide)
  have hsani : sanitizeText (.str t) = jsTrim (htmlEscape t) := by
    show (if t = [] then [] else jsTrim (htmlEscape t)) = jsTrim (htmlEscape t)
    rw [if_neg htne]
  obtain ⟨c, hc, hcw⟩ := exists_mem_not_ws t
    (fun h0 => by rw [h0] at h1; exact absurd h1 (by decide))
  obtain ⟨d, hd, hdw⟩ := htmlEscape_has_not_ws t c hc hcw
  have hne2 : jsTrim (htmlEscape t) ≠ [] := jsTrim_ne_nil _ d hd hdw
  have htrim : jsTrim (sanitizeText (.str t)) = jsTrim (htmlEscape t) := by
    rw [hsani, jsTrim_idem]
  have hvt : validTextOk (jsTrim (sanitizeText (.str t))) = true := by
    rw [htrim]
    refine validTextOk_of _ hne2 ?_ ?_
    · rw [jsTrim_idem]
      exact fun h0 => hne2 (List.length_eq_zero.mp h0)
    · rw [jsTrim_idem]
      omega
  have hmake : Todo.make (generateId nowMs rand)
      (jsTrim (sanitizeText (.str t))) false (some now) =
      some ⟨generateId nowMs rand, jsTrim (sanitizeText (.str t)), false,
        now⟩ :=
    make_some_of_valid _ _ _ _ (generateId_validId nowMs rand) hvt
  unfold addTodo
  rw [hvok]
  simp only
  rw [hmake]
  simp only
  rw [if_pos (saveTodos_success_of env app.storageManager _ hsave)]
  refine ⟨rfl, ?_⟩
  simp [getTodoCount]

/-- Witness for C2 (amended), at a concrete state and text. -/
theorem claim_C2_add_valid_witness :
    (addTodo .ok 7 (jsStr "r") 9 (TodoApp.new true .absent)
       (.str (jsStr "buy milk"))).fst.success = true ∧
    getTodoCount (addTodo .ok 7 (jsStr "r") 9 (TodoApp.new true .absent)
       (.str (jsStr "buy milk"))).snd = 1 := by
  have h := claim_C2_add_valid .ok 7 (jsStr "r") 9 (TodoApp.new true .absent)
    (jsStr "buy milk") (by decide) (by decide) (by decide) (by decide)
    (by simp)
  exact ⟨h.1, h.2⟩

/-! ## C8: toggle is positional replacement and self-inverse -/

theorem toggle_of_WF (t : Todo) (h : t.WF) :
    Todo.toggle t = some ⟨t.id, t.text, !t.completed, t.createdAt⟩ :=
  make_some_of_valid t.id t.text (!t.completed) t.createdAt h.1 h.2

theorem toggleTodo_eq (env : SetItemOutcome) (app : TodoApp) (x : Str)
    (i : Nat) (t : Todo) (hxne : ¬ (x = []))
    (hfind : findIndexFrom (fun td => td.id = x) app.todos = some i)
    (hget : app.todos.get? i = some t) (hwf : t.WF)
    (hsucc : (saveTodos env app.storageManager
      (setIdx app.todos i ⟨t.id, t.text, !t.completed, t.createdAt⟩)).fst.success
      = true) :
    toggleTodo env app (.str x) =
      (OpResult.okTodo ⟨t.id, t.text, !t.completed, t.createdAt⟩,
       { app with
           todos := setIdx app.todos i ⟨t.id, t.text, !t.completed, t.createdAt⟩
           storageManager := (saveTodos env app.storageManager
             (setIdx app.todos i
               ⟨t.id, t.text, !t.completed, t.createdAt⟩)).snd }) := by
  unfold toggleTodo
  simp only [if_neg hxne, hfind, hget, toggle_of_WF t hwf, hsucc, if_true]

/-- C8: for a registry state whose task list has its first task with id `x`
at position `i` (a well-formed task `t`), and with both persistence saves
succeeding, a single `toggleTodo x` succeeds and replaces the task at
position `i` with a new task of identical id, text and createdAt and
inverted completed, and applying `toggleTodo x` twice returns the task list
(and hence the task's completed flag) to its original value. -/
theorem claim_C8_toggle (env1 env2 : SetItemOutcome) (app : TodoApp)
    (x : Str) (i : Nat) (t : Todo)
    (hfind : findIndexFrom (fun td => td.id = x) app.todos = some i)
    (hget : app.todos.get? i = some t) (hwf : t.WF)
    (hs1 : ¬ (app.storageManager.isLocalStorageAvailable = true ∧
      env1 = .throwQuota))
    (hs2 : ¬ (app.storageManager.isLocalStorageAvailable = true ∧
      env2 = .throwQuota)) :
    (toggleTodo env1 app (.str x)).fst.success = true ∧
    (toggleTodo env1 app (.str x)).snd.todos =
      setIdx app.todos i ⟨t.id, t.text, !t.completed, t.createdAt⟩ ∧
    (toggleTodo env2 (toggleTodo env1 app (.str x)).snd
      (.str x)).fst.success = true ∧
    (toggleTodo env2 (toggleTodo env1 app (.str x)).snd (.str x)).snd.todos =
      app.todos := by
  have hpx : t.id = x := by
    obtain ⟨u, hu, hpu⟩ := findIndexFrom_get? _ _ _ hfind
    rw [hget] at hu
    cases hu
    exact of_decide_eq_true hpu
  have hxne : ¬ (x = []) := by
    intro h0
    have h1 := hwf.1
    rw [validIdOk, if_pos (hpx.trans h0)] at h1
    cases h1
  have e1 := toggleTodo_eq env1 app x i t hxne hfind hget hwf
    (saveTodos_success_of env1 app.storageManager _ hs1)
  have hfind1 : findIndexFrom (fun td => td.id = x)
      (setIdx app.todos i ⟨t.id, t.text, !t.completed, t.createdAt⟩) =
      some i :=
    findIndexFrom_setIdx _ _ _ _ hfind (decide_eq_true hpx)
  have hget1 : (setIdx app.todos i
      ⟨t.id, t.text, !t.completed, t.createdAt⟩).get? i =
      some ⟨t.id, t.text, !t.completed, t.createdAt⟩ :=
    setIdx_get? app.todos i t _ hget
  have hwf1 : Todo.WF ⟨t.id, t.text, !t.completed, t.createdAt⟩ :=
    ⟨hwf.1, hwf.2⟩
  have hs2a : ¬ ((saveTodos env1 app.storageManager
      (setIdx app.todos i
        ⟨t.id, t.text, !t.completed, t.createdAt⟩)).snd.isLocalStorageAvailable
      = true ∧ env2 = .throwQuota) := by
    rw [saveTodos_avail env1 app.storageManager _]
    exact hs2
  have e2 := toggleTodo_eq env2
    { app with
        todos := setIdx app.todos i ⟨t.id, t.text, !t.completed, t.createdAt⟩
        storageManager := (saveTodos env1 app.storageManager
          (setIdx app.todos i
            ⟨t.id, t.text, !t.completed, t.createdAt⟩)).snd }
    x i ⟨t.id, t.text, !t.completed, t.createdAt⟩ hxne hfind1 hget1 hwf1
    (saveTodos_success_of env2 _ _ hs2a)
  have hnn : (⟨t.id, t.text, !(!t.completed), t.createdAt⟩ : Todo) = t := by
    rw [Bool.not_not]
  refine ⟨by rw [e1]; rfl, by rw [e1], by rw [e1, e2]; rfl, ?_⟩
  rw [e1, e2]
  show setIdx
    (setIdx app.todos i ⟨t.id, t.text, !t.completed, t.createdAt⟩) i
    ⟨t.id, t.text, !(!t.completed), t.createdAt⟩ = app.todos
  rw [hnn, setIdx_setIdx, setIdx_self app.todos i t hget]

/-- Witness for C8, at a concrete one-task state, toggling twice. -/
theorem claim_C8_toggle_witness :
    (toggleTodo .ok ⟨[⟨jsStr "todo_1", jsStr "buy milk", false, 5⟩],
       ⟨true, [], .absent⟩, true⟩ (.str (jsStr "todo_1"))).fst.success =
      true ∧
    (toggleTodo .ok ⟨[⟨jsStr "todo_1", jsStr "buy milk", false, 5⟩],
       ⟨true, [], .absent⟩, true⟩ (.str (jsStr "todo_1"))).snd.todos =
      [⟨jsStr "todo_1", jsStr "buy milk", true, 5⟩] ∧
    (toggleTodo .ok (toggleTodo .ok
       ⟨[⟨jsStr "todo_1", jsStr "buy milk", false, 5⟩],
        ⟨true, [], .absent⟩, true⟩ (.str (jsStr "todo_1"))).snd
       (.str (jsStr "todo_1"))).snd.todos =
      [⟨jsStr "todo_1", jsStr "buy milk", false, 5⟩] := by
  have h := claim_C8_toggle .ok .ok
    ⟨[⟨jsStr "todo_1", jsStr "buy milk", false, 5⟩], ⟨true, [], .absent⟩,
     true⟩ (jsStr "todo_1") 0 ⟨jsStr "todo_1", jsStr "buy milk", false, 5⟩
    (by decide) rfl (by decide) (by simp) (by simp)
  exact ⟨h.1, h.2.1, h.2.2.2⟩

/-! ## C3: the registry invariant (corrected) -/

/-- All tasks of a registry state pass the `Todo` constructor's checks. -/
def AllWF (app : TodoApp) : Prop := ∀ t ∈ app.todos, t.WF

/-- The registry states reachable from construction by initialization and
the registry operations (with arbitrary environment behaviour, inputs and
clock values at every step). -/
inductive Reachable : TodoApp → Prop where
  | construct (avail : Bool) (cell : StoreCell) :
      Reachable (TodoApp.new avail cell)
  | init {a : TodoApp} : Reachable a → Reachable (initApp a).app
  | add {a : TodoApp} (env : SetItemOutcome) (nowMs : Nat) (rand : Str)
      (now : Int) (text : JSInput) :
      Reachable a → Reachable (addTodo env nowMs rand now a text).snd
  | toggle {a : TodoApp} (env : SetItemOutcome) (rawId : JSInput) :
      Reachable a → Reachable (toggleTodo env a rawId).snd
  | delete {a : TodoApp} (env : SetItemOutcome) (rawId : JSInput) :
      Reachable a → Reachable (deleteTodo env a rawId).snd
  | clear {a : TodoApp} (removeThrows : Bool) :
      Reachable a → Reachable (clearAllTodos removeThrows a).snd

theorem initApp_WF (a : TodoApp) : AllWF (initApp a).app := by
  unfold AllWF
  simp only [initApp, loadTodos_success, if_true]
  cases hdata : (loadTodos a.storageManager).data with
  | none => intro t ht; cases ht
  | some l =>
    intro t ht
    exact loadTodos_data_WF a.storageManager l hdata t ht

theorem addTodo_WF (env : SetItemOutcome) (nowMs : Nat) (rand : Str)
    (now : Int) (a : TodoApp) (text : JSInput) (h : AllWF a) :
    AllWF (addTodo env nowMs rand now a text).snd := by
  unfold addTodo
  cases hv : validateTaskText text with
  | err k m => exact h
  | ok =>
    simp only
    cases hm : Todo.make (generateId nowMs rand)
        (jsTrim (sanitizeText text)) false (some now) with
    | none => exact h
    | some newTodo =>
      have hwfn : newTodo.WF := make_WF _ _ _ _ _ hm
      simp only
      by_cases hs : (saveTodos env a.storageManager
          (a.todos ++ [newTodo])).fst.success = true
      · rw [if_pos hs]
        intro t ht
        rcases List.mem_append.mp ht with h1 | h1
        · exact h t h1
        · rw [List.mem_singleton.mp h1]
          exact hwfn
      · rw [if_neg hs]
        intro t ht
        have hsub := (List.dropLast_sublist (a.todos ++ [newTodo])).subset ht
        rcases List.mem_append.mp hsub with h1 | h1
        · exact h t h1
        · rw [List.mem_singleton.mp h1]
          exact hwfn

theorem toggleTodo_WF (env : SetItemOutcome) (a : TodoApp) (rawId : JSInput)
    (h : AllWF a) : AllWF (toggleTodo env a rawId).snd := by
  unfold toggleTodo
  cases rawId with
  | null => exact h
  | undefined => exact h
  | other => exact h
  | str id =>
    by_cases hid : id = []
    · simp only [if_pos hid]
      exact h
    · simp only [if_neg hid]
      cases hfind : findIndexFrom (fun t => t.id = id) a.todos with
      | none => exact h
      | some i =>
        dsimp only
        cases hget : a.todos.get? i with
        | none => exact h
        | some cur =>
          dsimp only
          cases htog : cur.toggle with
          | none => exact h
          | some tog =>
            have hwft : tog.WF := make_WF _ _ _ _ _ htog
            have hcur : cur.WF := h cur (List.get?_mem hget)
            dsimp only
            by_cases hs : (saveTodos env a.storageManager
                (setIdx a.todos i tog)).fst.success = true
            · rw [if_pos hs]
              intro t ht
              rcases mem_setIdx _ _ _ _ ht with h1 | h1
              · exact h t h1
              · rw [h1]; exact hwft
            · rw [if_neg hs]
              intro t ht
              rcases mem_setIdx _ _ _ _ ht with h1 | h1
              · rcases mem_setIdx _ _ _ _ h1 with h2 | h2
                · exact h t h2
                · rw [h2]; exact hwft
              · rw [h1]; exact hcur

theorem deleteTodo_WF (env : SetItemOutcome) (a : TodoApp) (rawId : JSInput)
    (h : AllWF a) : AllWF (deleteTodo env a rawId).snd := by
  unfold deleteTodo
  cases rawId with
  | null => exact h
  | undefined => exact h
  | other => exact h
  | str id =>
    by_cases hid : id = []
    · simp only [if_pos hid]
      exact h
    · simp only [if_neg hid]
      cases hfind : findIndexFrom (fun t => t.id = id) a.todos with
      | none => exact h
      | some i =>
        dsimp only
        cases hget : a.todos.get? i with
        | none => exact h
        | some del =>
          have hdel : del.WF := h del (List.get?_mem hget)
          dsimp only
          by_cases hs : (saveTodos env a.storageManager
              (spliceRemove a.todos i)).fst.success = true
          · rw [if_pos hs]
            intro t ht
            exact h t (mem_spliceRemove _ _ _ ht)
          · rw [if_neg hs]
            intro t ht
            rcases mem_spliceInsert _ _ _ _ ht with h1 | h1
            · exact h t (mem_spliceRemove _ _ _ h1)
            · rw [h1]; exact hdel

theorem clearAllTodos_WF (removeThrows : Bool) (a : TodoApp) (h : AllWF a) :
    AllWF (clearAllTodos removeThrows a).snd := by
  unfold clearAllTodos
  simp only
  by_cases hs : (clearTodos removeThrows a.storageManager).fst.success = true
  · rw [if_pos hs]
    intro t ht
    cases ht
  · rw [if_neg hs]
    exact h

/-- Counterexample to C3: the state reached by initializing from a store
holding a record whose text is `javascript:alert(1)` is reachable, and its
single task violates the Validator's unsafe-content constraint — loading
only re-runs the `Todo` constructor's checks, never the unsafe-pattern
check. -/
theorem claim_C3_cex :
    Reachable (initApp (TodoApp.new true (.records
      [⟨.str (jsStr "todo_1"), .str (jsStr "javascript:alert(1)"),
        .bool false, .isoDate 5⟩]))).app ∧
    (initApp (TodoApp.new true (.records
      [⟨.str (jsStr "todo_1"), .str (jsStr "javascript:alert(1)"),
        .bool false, .isoDate 5⟩]))).app.todos =
      [⟨jsStr "todo_1", jsStr "javascript:alert(1)", false, 5⟩] ∧
    containsUnsafeCharacters
      (jsTrim (jsStr "javascript:alert(1)")) = true := by
  refine ⟨Reachable.init (Reachable.construct true _), ?_, ?_⟩ <;> decide

/-- C3 (amended): at every reachable registry state, every task satisfies
the `Todo` constructor's validation — a non-empty id and a text whose
trimmed length is 1 to 200.  (Freedom from unsafe-content patterns is NOT
invariant: it is checked only on the `addTodo` path, not when loading
persisted records.) -/
theorem claim_C3_invariant (a : TodoApp) (h : Reachable a) :
    ∀ t ∈ a.todos, t.WF := by
  induction h with
  | construct avail cell => intro t ht; cases ht
  | init _ => exact initApp_WF _
  | add env nowMs rand now text _ ih => exact addTodo_WF _ _ _ _ _ _ ih
  | toggle env rawId _ ih => exact toggleTodo_WF _ _ _ ih
  | delete env rawId _ ih => exact deleteTodo_WF _ _ _ ih
  | clear removeThrows _ ih => exact clearAllTodos_WF _ _ ih

/-- Witness for C3 (amended): the invariant evaluated at a concrete
reachable state holding one loaded task. -/
theorem claim_C3_invariant_witness :
    Todo.WF ⟨jsStr "todo_1", jsStr "buy milk", false, 5⟩ :=
  claim_C3_invariant _ (Reachable.init (Reachable.construct true
    (.records [⟨.str (jsStr "todo_1"), .str (jsStr "buy milk"), .bool false,
      .isoDate 5⟩])))
    ⟨jsStr "todo_1", jsStr "buy milk", false, 5⟩ (by decide)
